import Mathlib

/-!
Verification of the date-normalization and ordering core of the book-library
repository (`sorter.py`, plus the search filter of `app.py`).

The Python source is shallowly embedded: strings are `String`/`List Char`,
Python `int` is `Nat`/`Int`, an uncaught `ValueError` is modelled by `none`
(`Option`), and Python's stable `sorted` is modelled by a stable insertion
sort over a boolean total preorder.
-/

/-- Substring test helper: does the list start with the pattern?
Models the anchored part of Python's `in` operator on strings. -/
def startsW : List Char → List Char → Bool
  | _, [] => true
  | [], _ :: _ => false
  | c :: cs, p :: ps => c == p && startsW cs ps

/-- `hasSub pat l` models Python's substring containment `pat in l`. -/
def hasSub (pat : List Char) : List Char → Bool
  | [] => pat.isEmpty
  | c :: t => startsW (c :: t) pat || hasSub pat t

/-- Models Python `str.lower()` (ASCII case folding, the relevant fragment). -/
def pyLower (l : List Char) : List Char := l.map Char.toLower

/-- Models Python `str.strip()`: drop whitespace at both ends. -/
def pyStrip (l : List Char) : List Char :=
  ((l.dropWhile Char.isWhitespace).reverse.dropWhile Char.isWhitespace).reverse

/-- Models Python `int` applied to a nonempty all-digit string
(decimal value of the digit characters). -/
def digitsToNat (l : List Char) : Nat :=
  l.foldl (fun n c => 10 * n + (c.toNat - 48)) 0

/-- `sorter.py` line 9: `date_str.strip().lower()` applied to the input. -/
def lowstrip (s : String) : List Char := pyStrip (pyLower s.data)

/-- `sorter.py` line 12: `is_bc = "bc" in date_str or "b.c." in date_str`,
evaluated on the stripped, lowercased input. -/
def is_bc (s : String) : Bool :=
  hasSub ['b', 'c'] (lowstrip s) || hasSub ['b', '.', 'c', '.'] (lowstrip s)

/-- `sorter.py` line 13: `re.sub(r"[^0-9s]", "", date_str)` — keep only the
digit characters and the letter `s`. -/
def cleaned (s : String) : List Char :=
  (lowstrip s).filter (fun c => c.isDigit || c == 's')

/-- `sorter.py` `parse_date`, lines 5-24.  `none` models the uncaught
`ValueError` raised by `int("")` in the decade branch (line 16); every other
path returns a value (the `ValueError` of the plain branch is caught at
lines 21-22 and turned into `0`).  `date_str.replace("s", "")` is
`filter (· != 's')` and the slice `[:4]` is `take 4`; the empty-string test
models Python's falsiness test `if not date_str`. -/
def parse_date (s : String) : Option Int :=
  if s = "" then some 0
  else if (cleaned s).contains 's' then
    if (((cleaned s).filter (fun c => c != 's')).take 4).isEmpty then none
    else
      some (if is_bc s then
              -((digitsToNat (((cleaned s).filter (fun c => c != 's')).take 4) : Int) + 5)
            else (digitsToNat (((cleaned s).filter (fun c => c != 's')).take 4) : Int) + 5)
  else if (cleaned s).isEmpty then some 0
  else some (if is_bc s then -(digitsToNat (cleaned s) : Int) else (digitsToNat (cleaned s) : Int))

/-- The `year` value of `parse_date` before the sign of line 24 is applied
(lines 7-22 of `sorter.py`): the unsigned magnitude of the parsed date.
`none` again models the uncaught `ValueError` of the decade branch. -/
def magnitude (s : String) : Option Nat :=
  if s = "" then some 0
  else if (cleaned s).contains 's' then
    if (((cleaned s).filter (fun c => c != 's')).take 4).isEmpty then none
    else some (digitsToNat (((cleaned s).filter (fun c => c != 's')).take 4) + 5)
  else if (cleaned s).isEmpty then some 0
  else some (digitsToNat (cleaned s))

/-- Modelled from the spec (claim C2's wording of the decade rule): take at
most the first four digits *before* the "s" of the cleaned token, parse them
as an integer, add 5, and apply the BC sign afterwards. -/
def spec_decade_value (s : String) : Int :=
  if is_bc s then
    -((digitsToNat (((cleaned s).takeWhile (fun c => c != 's')).take 4) : Int) + 5)
  else (digitsToNat (((cleaned s).takeWhile (fun c => c != 's')).take 4) : Int) + 5

/-- Modelled from the spec (claim C3's wording of the era marker): the
substring "bc" is present in the lowercased input, with or without internal
punctuation such as periods — i.e. "bc" occurs once periods are ignored. -/
def spec_bc_marker (s : String) : Bool :=
  hasSub ['b', 'c'] ((pyLower s.data).filter (fun c => c != '.'))

/-- A book record.  `app.py` and `sorter.py` read exactly these four fields
of the persisted dict (via `dict.get` with default `""`); a missing or null
field is `none`.  The remaining fields of the record are only echoed by the
display layer and never inspected by the core. -/
structure Book where
  title : Option String
  author : Option String
  original_date : Option String
  release_date : Option String
deriving DecidableEq, Repr

/-- `sorter.py` lines 32-35: the sort key of a record,
`(parse_date(book.get("original_date", "")), parse_date(book.get("release_date", "")))`.
`none` models the `ValueError` escaping from `parse_date`. -/
def sort_key (b : Book) : Option (Int × Int) :=
  match parse_date (b.original_date.getD ""), parse_date (b.release_date.getD "") with
  | some o, some r => some (o, r)
  | _, _ => none

/-- Lexicographic order on sort-key pairs, as Python compares tuples. -/
def keyLe (p q : Int × Int) : Bool :=
  decide (p.1 < q.1 ∨ (p.1 = q.1 ∧ p.2 ≤ q.2))

/-- `keyLe` lifted to possibly-failing keys.  The `none` cases are never
observable through `sort_books` (it returns `none` as soon as any key is
`none`); they are fixed arbitrarily so that the order is total. -/
def optKeyLe : Option (Int × Int) → Option (Int × Int) → Bool
  | none, _ => true
  | some _, none => false
  | some p, some q => keyLe p q

/-- The comparison used by `sorted(books, key=sort_key, reverse=reverse)`:
ascending by key, or with every comparison reversed when `reverse` is set. -/
def bookLe : Bool → Book → Book → Bool
  | false, x, y => optKeyLe (sort_key x) (sort_key y)
  | true, x, y => optKeyLe (sort_key y) (sort_key x)

/-- Stable insertion of `a` into `l`: `a` goes in front of the first element
`b` with `r a b`, after every earlier element it does not precede. -/
def insertAsc {α : Type} (r : α → α → Bool) (a : α) : List α → List α
  | [] => [a]
  | b :: l => if r a b then a :: b :: l else b :: insertAsc r a l

/-- Stable insertion sort by the boolean total preorder `r`.  For a total
preorder this produces the unique `r`-sorted permutation in which elements
equivalent under `r` keep their input order — the documented behaviour of
Python's `sorted` (stable, and with `reverse=True` ties also keep input
order), so it is the model of `sorted(..., key=..., reverse=...)`. -/
def isort {α : Type} (r : α → α → Bool) : List α → List α
  | [] => []
  | a :: l => insertAsc r a (isort r l)

/-- `sorter.py` lines 27-37: `sorted(books, key=sort_key, reverse=reverse)`.
Python computes the key of every record (raising iff some key raises,
modelled by `none`) and then stable-sorts by key, with comparisons reversed
when `reverse` is set. -/
def sort_books (books : List Book) (reverse : Bool) : Option (List Book) :=
  if books.all (fun b => (sort_key b).isSome) then some (isort (bookLe reverse) books)
  else none

/-- `app.py` lines 29-35: the search predicate of the list comprehension,
`search_lower in b.get("title", "").lower() or search_lower in b.get("author", "").lower()`. -/
def bookMatches (q : String) (b : Book) : Bool :=
  hasSub (pyLower q.data) (pyLower (b.title.getD "").data) ||
    hasSub (pyLower q.data) (pyLower (b.author.getD "").data)

/-- `app.py` lines 28-35: the filtering step.  `if search_query:` skips the
comprehension entirely on the empty query. -/
def search_filter (books : List Book) (q : String) : List Book :=
  if q = "" then books else books.filter (bookMatches q)

example : parse_date "" = some 0 := by decide
example : parse_date "1963" = some 1963 := by decide
example : parse_date "80 BC" = some (-80) := by decide
example : parse_date "1960s" = some 1965 := by decide
example : parse_date "300s BC" = some (-305) := by decide
example : parse_date "circa 1200" = some 1200 := by decide
example : parse_date "circa" = some 0 := by decide
example : parse_date "s" = none := by decide
example : parse_date "1s960" = some 1965 := by decide
example : parse_date "80 b.c" = some 80 := by decide
example : parse_date "80 B.C." = some (-80) := by decide
example :
    sort_books [⟨some "A", none, some "1963", none⟩, ⟨some "B", none, some "80 BC", none⟩] false =
      some [⟨some "B", none, some "80 BC", none⟩, ⟨some "A", none, some "1963", none⟩] := by decide
example : sort_books [⟨none, none, some "s", none⟩] false = none := by decide
example :
    search_filter [⟨some "The Hobbit", some "J.R.R. Tolkien", none, none⟩] "tolkien" =
      [⟨some "The Hobbit", some "J.R.R. Tolkien", none, none⟩] := by decide
example : List.Pairwise (fun a b => sort_key a ≠ sort_key b)
    [(⟨some "A", none, some "1963", none⟩ : Book), ⟨some "B", none, some "80 BC", none⟩] := by decide

theorem keyLe_refl (p : Int × Int) : keyLe p p = true := by
  simp [keyLe]

theorem keyLe_trans {p q u : Int × Int} (h1 : keyLe p q = true) (h2 : keyLe q u = true) :
    keyLe p u = true := by
  simp only [keyLe, decide_eq_true_eq] at h1 h2 ⊢
  omega

theorem keyLe_total (p q : Int × Int) : keyLe p q = true ∨ keyLe q p = true := by
  simp only [keyLe, decide_eq_true_eq]
  omega

theorem keyLe_antisym {p q : Int × Int} (h1 : keyLe p q = true) (h2 : keyLe q p = true) :
    p = q := by
  rcases p with ⟨a, b⟩
  rcases q with ⟨c, d⟩
  simp only [keyLe, decide_eq_true_eq] at h1 h2
  have hac : a = c := by omega
  have hbd : b = d := by omega
  rw [hac, hbd]

theorem optKeyLe_refl (p : Option (Int × Int)) : optKeyLe p p = true := by
  cases p with
  | none => rfl
  | some p => exact keyLe_refl p

theorem optKeyLe_trans : ∀ {p q u : Option (Int × Int)}, optKeyLe p q = true →
    optKeyLe q u = true → optKeyLe p u = true
  | none, _, _, _, _ => rfl
  | some _, none, _, h1, _ => by simp [optKeyLe] at h1
  | some _, some _, none, _, h2 => by simp [optKeyLe] at h2
  | some _, some _, some _, h1, h2 => keyLe_trans h1 h2

theorem optKeyLe_total : ∀ p q : Option (Int × Int), optKeyLe p q = true ∨ optKeyLe q p = true
  | none, _ => Or.inl rfl
  | some _, none => Or.inr rfl
  | some p, some q => keyLe_total p q

theorem optKeyLe_antisym : ∀ {p q : Option (Int × Int)}, optKeyLe p q = true →
    optKeyLe q p = true → p = q
  | none, none, _, _ => rfl
  | none, some _, _, h2 => by simp [optKeyLe] at h2
  | some _, none, h1, _ => by simp [optKeyLe] at h1
  | some _, some _, h1, h2 => by rw [keyLe_antisym h1 h2]

theorem bookLe_refl (rev : Bool) (x : Book) : bookLe rev x x = true := by
  cases rev <;> exact optKeyLe_refl _

theorem bookLe_trans {rev : Bool} {x y z : Book} (h1 : bookLe rev x y = true)
    (h2 : bookLe rev y z = true) : bookLe rev x z = true := by
  cases rev
  · exact optKeyLe_trans h1 h2
  · exact optKeyLe_trans h2 h1

theorem bookLe_total (rev : Bool) (x y : Book) : bookLe rev x y = true ∨ bookLe rev y x = true := by
  cases rev
  · exact optKeyLe_total _ _
  · exact (optKeyLe_total _ _).symm

theorem bookLe_key_eq {rev : Bool} {x y : Book} (h1 : bookLe rev x y = true)
    (h2 : bookLe rev y x = true) : sort_key x = sort_key y := by
  cases rev
  · exact optKeyLe_antisym h1 h2
  · exact optKeyLe_antisym h2 h1

theorem perm_insertAsc {α : Type} (r : α → α → Bool) (a : α) :
    ∀ l : List α, (insertAsc r a l).Perm (a :: l)
  | [] => List.Perm.refl _
  | b :: t => by
    cases h : r a b with
    | true => simp [insertAsc, h]
    | false =>
      simp only [insertAsc, h]
      exact (((perm_insertAsc r a t).cons b).trans (List.Perm.swap a b t))

theorem perm_isort {α : Type} (r : α → α → Bool) : ∀ l : List α, (isort r l).Perm l
  | [] => List.Perm.refl _
  | a :: t => (perm_insertAsc r a (isort r t)).trans ((perm_isort r t).cons a)

theorem mem_insertAsc {α : Type} {r : α → α → Bool} {a x : α} {l : List α} :
    x ∈ insertAsc r a l ↔ x = a ∨ x ∈ l := by
  rw [(perm_insertAsc r a l).mem_iff]
  simp

theorem pairwise_insertAsc {α : Type} {r : α → α → Bool}
    (htot : ∀ x y, r x y = true ∨ r y x = true)
    (htrans : ∀ x y z, r x y = true → r y z = true → r x z = true) (a : α) :
    ∀ {l : List α}, l.Pairwise (fun x y => r x y = true) →
      (insertAsc r a l).Pairwise (fun x y => r x y = true)
  | [], _ => by simp [insertAsc]
  | b :: t, h => by
    rcases List.pairwise_cons.mp h with ⟨hb, ht⟩
    cases hr : r a b with
    | true =>
      simp only [insertAsc, hr, if_true]
      refine List.pairwise_cons.mpr ⟨?_, h⟩
      intro y hy
      rcases List.mem_cons.mp hy with rfl | hy
      · exact hr
      · exact htrans a b y hr (hb y hy)
    | false =>
      simp only [insertAsc, hr, if_false]
      refine List.pairwise_cons.mpr ⟨?_, pairwise_insertAsc htot htrans a ht⟩
      intro y hy
      rcases mem_insertAsc.mp hy with rfl | hy
      · rcases htot y b with h1 | h1
        · rw [hr] at h1
          cases h1
        · exact h1
      · exact hb y hy

theorem pairwise_isort {α : Type} {r : α → α → Bool}
    (htot : ∀ x y, r x y = true ∨ r y x = true)
    (htrans : ∀ x y z, r x y = true → r y z = true → r x z = true) :
    ∀ l : List α, (isort r l).Pairwise (fun x y => r x y = true)
  | [] => List.Pairwise.nil
  | a :: t => pairwise_insertAsc htot htrans a (pairwise_isort htot htrans t)

theorem insertAsc_eq_cons {α : Type} {r : α → α → Bool} {a : α} :
    ∀ {l : List α}, (∀ c ∈ l, r a c = true) → insertAsc r a l = a :: l
  | [], _ => rfl
  | b :: t, h => by simp [insertAsc, h b (List.mem_cons_self b t)]

theorem filter_insertAsc {α : Type} {r : α → α → Bool}
    (htrans : ∀ x y z, r x y = true → r y z = true → r x z = true)
    (p : α → Bool) (a : α) :
    ∀ {l : List α}, l.Pairwise (fun x y => r x y = true) →
      (insertAsc r a l).filter p = if p a then insertAsc r a (l.filter p) else l.filter p
  | [], _ => by cases hpa : p a <;> simp [insertAsc, List.filter, hpa]
  | b :: t, h => by
    rcases List.pairwise_cons.mp h with ⟨hb, ht⟩
    cases hr : r a b with
    | true =>
      have hcons : insertAsc r a (b :: t) = a :: b :: t := by simp [insertAsc, hr]
      rw [hcons]
      cases hpa : p a with
      | false => simp [List.filter_cons, hpa]
      | true =>
        have hall : ∀ c ∈ (b :: t).filter p, r a c = true := by
          intro c hc
          rcases List.mem_cons.mp (List.mem_of_mem_filter hc) with rfl | hcm
          · exact hr
          · exact htrans a b c hr (hb c hcm)
        rw [insertAsc_eq_cons hall]
        simp [List.filter_cons, hpa]
    | false =>
      have hcons : insertAsc r a (b :: t) = b :: insertAsc r a t := by simp [insertAsc, hr]
      rw [hcons]
      have IH := filter_insertAsc htrans p a ht
      cases hpa : p a with
      | true =>
        cases hpb : p b with
        | true => simp [List.filter_cons, hpa, hpb, IH, insertAsc, hr]
        | false => simp [List.filter_cons, hpa, hpb, IH]
      | false => simp [List.filter_cons, hpa, IH]

theorem filter_isort {α : Type} {r : α → α → Bool}
    (htot : ∀ x y, r x y = true ∨ r y x = true)
    (htrans : ∀ x y z, r x y = true → r y z = true → r x z = true)
    {p : α → Bool} (hp : ∀ x y, p x = true → p y = true → r x y = true) :
    ∀ l : List α, (isort r l).filter p = l.filter p
  | [] => rfl
  | a :: t => by
    show (insertAsc r a (isort r t)).filter p = (a :: t).filter p
    rw [filter_insertAsc htrans p a (pairwise_isort htot htrans t),
      filter_isort htot htrans hp t]
    cases hpa : p a with
    | true =>
      have hall : ∀ c ∈ t.filter p, r a c = true := fun c hc =>
        hp a c hpa (List.of_mem_filter hc)
      rw [if_pos rfl, insertAsc_eq_cons hall, List.filter_cons, hpa]
      simp
    | false =>
      rw [if_neg (by simp), List.filter_cons, hpa]
      simp

theorem sorted_perm_unique {α : Type} {R : α → α → Prop} (l₁ : List α) :
    ∀ l₂ : List α, l₁.Perm l₂ → l₁.Pairwise R → l₂.Pairwise R →
      (∀ x y, x ∈ l₁ → y ∈ l₁ → R x y → R y x → x = y) → l₁ = l₂ := by
  induction l₁ with
  | nil =>
    intro l₂ hp _ _ _
    exact hp.symm.eq_nil.symm
  | cons a t₁ ih =>
    intro l₂ hp h₁ h₂ hanti
    cases l₂ with
    | nil => exact absurd hp.eq_nil (by simp)
    | cons b t₂ =>
      rcases List.pairwise_cons.mp h₁ with ⟨ha1, ht₁⟩
      rcases List.pairwise_cons.mp h₂ with ⟨hb2, ht₂⟩
      have hab : a = b := by
        by_cases heq : a = b
        · exact heq
        · have ha2 : a ∈ b :: t₂ := hp.mem_iff.mp (List.mem_cons_self a t₁)
          have hb1 : b ∈ a :: t₁ := hp.symm.mem_iff.mp (List.mem_cons_self b t₂)
          have hat2 : a ∈ t₂ := by
            rcases List.mem_cons.mp ha2 with h | h
            · exact absurd h heq
            · exact h
          have hbt1 : b ∈ t₁ := by
            rcases List.mem_cons.mp hb1 with h | h
            · exact absurd h.symm heq
            · exact h
          exact hanti a b (List.mem_cons_self a t₁) hb1 (ha1 b hbt1) (hb2 a hat2)
      subst hab
      have ht : t₁ = t₂ :=
        ih t₂ hp.cons_inv ht₁ ht₂
          (fun x y hx hy => hanti x y (List.mem_cons_of_mem a hx) (List.mem_cons_of_mem a hy))
      rw [ht]

/-- From a successful sort, recover the insertion-sort normal form. -/
theorem sort_books_eq {books out : List Book} {rev : Bool}
    (h : sort_books books rev = some out) : out = isort (bookLe rev) books := by
  unfold sort_books at h
  by_cases hg : books.all (fun b => (sort_key b).isSome) = true
  · rw [if_pos hg] at h
    exact (Option.some.inj h).symm
  · rw [if_neg hg] at h
    cases h

/-- Every path of `parse_date` is the sign of `is_bc` applied to `magnitude`. -/
theorem parse_date_eq_sign_magnitude (s : String) :
    parse_date s = (magnitude s).map (fun n => if is_bc s then -(n : Int) else (n : Int)) := by
  unfold parse_date magnitude
  by_cases hs : s = ""
  · subst hs
    decide
  · rw [if_neg hs, if_neg hs]
    by_cases hc : (cleaned s).contains 's' = true
    · rw [if_pos hc, if_pos hc]
      by_cases he : ((((cleaned s).filter (fun c => c != 's')).take 4)).isEmpty = true
      · rw [if_pos he, if_pos he]
        rfl
      · rw [if_neg he, if_neg he]
        cases hbc : is_bc s <;> simp [hbc]
    · rw [if_neg hc, if_neg hc]
      by_cases he : (cleaned s).isEmpty = true
      · rw [if_pos he, if_pos he]
        cases hbc : is_bc s <;> simp [hbc]
      · rw [if_neg he, if_neg he]
        cases hbc : is_bc s <;> simp [hbc]

/-- The empty substring is contained in every string, as in Python. -/
theorem hasSub_nil (l : List Char) : hasSub [] l = true := by
  cases l <;> rfl

/-- C1: the claim says `normalize` never fails or raises and maps unparseable
input to `0`.  The code contradicts it: on input `"s"` (cleaned token with an
`"s"` but no digit) the decade branch evaluates `int("")`, which raises an
uncaught `ValueError` (modelled by `none`).  On every input whose cleaned
token has no `"s"` the function does return a value. -/
theorem c1_normalize_never_raises (s : String) (h : (cleaned s).contains 's' = false) :
    (parse_date s).isSome = true ∧ parse_date "s" = none := by
  refine ⟨?_, by decide⟩
  unfold parse_date
  by_cases hs : s = ""
  · rw [if_pos hs]
    rfl
  · rw [if_neg hs, if_neg (by rw [h]; simp)]
    by_cases he : (cleaned s).isEmpty = true
    · rw [if_pos he]
      rfl
    · rw [if_neg he]
      rfl

/-- C1 witness: instantiated at the ordinary input `"1963"`. -/
theorem c1_normalize_never_raises_witness :
    (parse_date "1963").isSome = true ∧ parse_date "s" = none :=
  c1_normalize_never_raises "1963" (by decide)

/-- C2 counterexample: on `"1s960"` the cleaned token contains `"s"`, the
claim's rule (first four digits *before* the `"s"`, plus 5) yields `1 + 5 = 6`,
but the code removes every `"s"` first and reads the remaining digits, giving
`1960 + 5 = 1965`. -/
theorem c2_decade_counterexample :
    (cleaned "1s960").contains 's' = true ∧
      parse_date "1s960" = some 1965 ∧
      spec_decade_value "1s960" = 6 ∧
      parse_date "1s960" ≠ some (spec_decade_value "1s960") := by
  refine ⟨by decide, by decide, by decide, by decide⟩

/-- C2 amended: when the cleaned token contains `"s"` and at least one digit,
`normalize` removes every `"s"`, takes the first four remaining digits
(wherever they occur, not only those before the `"s"`), parses them, adds 5,
and applies the BC sign afterwards; `normalize("1960s") = 1965` and
`normalize("300s BC") = -305`.  (With an `"s"` but no digit at all the code
raises instead of returning.) -/
theorem c2_decade_amended (s : String) (hs : (cleaned s).contains 's' = true)
    (hd : (cleaned s).filter (fun c => c != 's') ≠ []) :
    parse_date s =
      some (if is_bc s then
              -((digitsToNat (((cleaned s).filter (fun c => c != 's')).take 4) : Int) + 5)
            else (digitsToNat (((cleaned s).filter (fun c => c != 's')).take 4) : Int) + 5) ∧
      parse_date "1960s" = some 1965 ∧ parse_date "300s BC" = some (-305) := by
  refine ⟨?_, by decide, by decide⟩
  have hne : s ≠ "" := by
    intro he
    subst he
    exact absurd hs (by decide)
  have hds : (((cleaned s).filter (fun c => c != 's')).take 4).isEmpty = false := by
    cases hfc : (cleaned s).filter (fun c => c != 's') with
    | nil => exact absurd hfc hd
    | cons c cs => simp [List.take_succ_cons]
  unfold parse_date
  rw [if_neg hne, if_pos hs, if_neg (by simp [hds])]

/-- C2 witness: the amended decade rule instantiated at `"1960s"`. -/
theorem c2_decade_amended_witness :
    parse_date "1960s" =
      some (if is_bc "1960s" then
              -((digitsToNat (((cleaned "1960s").filter (fun c => c != 's')).take 4) : Int) + 5)
            else (digitsToNat (((cleaned "1960s").filter (fun c => c != 's')).take 4) : Int) + 5) ∧
      parse_date "1960s" = some 1965 ∧ parse_date "300s BC" = some (-305) :=
  c2_decade_amended "1960s" (by decide) (by decide)

/-- C3 counterexample: `"80 b.c"` contains the substring "bc" with an internal
period (the claim's marker), yet the code — which only recognizes the literal
substrings `"bc"` and `"b.c."` (trailing period required) — returns `+80`,
not the negated `-80` the claim demands. -/
theorem c3_bc_counterexample :
    spec_bc_marker "80 b.c" = true ∧
      parse_date "80 b.c" = some 80 ∧
      parse_date "80 b.c" ≠ some (-80) := by
  refine ⟨by decide, by decide, by decide⟩

/-- C3 amended: `normalize` treats the input as BC exactly when the stripped,
lowercased input contains `"bc"` or `"b.c."` as a literal substring (`"b.c"`
without the trailing period is not recognized), and then negates the derived
year; absence of both markers means the result is returned unsigned;
`normalize("80 BC") = -80` and `normalize("1963") = 1963`. -/
theorem c3_bc_sign_amended (s : String) (v : Int) (h : parse_date s = some v) :
    (∃ n : Nat, magnitude s = some n ∧ v = if is_bc s then -(n : Int) else (n : Int)) ∧
      (is_bc s = (hasSub ['b', 'c'] (lowstrip s) || hasSub ['b', '.', 'c', '.'] (lowstrip s))) ∧
      parse_date "80 BC" = some (-80) ∧ parse_date "80 b.c" = some 80 ∧
      parse_date "1963" = some 1963 := by
  refine ⟨?_, rfl, by decide, by decide, by decide⟩
  rw [parse_date_eq_sign_magnitude s] at h
  cases hm : magnitude s with
  | none =>
    rw [hm] at h
    cases h
  | some n =>
    rw [hm] at h
    exact ⟨n, rfl, (Option.some.inj h).symm⟩

/-- C4: whenever `sort_books` returns (the claim overlooks that it raises on
records whose date has an `"s"` but no digit, e.g. `original_date = "s"`),
the output is ordered by the lexicographic pair of normalized dates, and a
record with both date fields missing gets the key `(0, 0)` — the empty string
fed to the normalizer.  The last conjunct evaluates the code at the failing
input. -/
theorem c4_sorted_by_key (books out : List Book) (t a : Option String)
    (h : sort_books books false = some out) :
    out.Pairwise (fun x y => optKeyLe (sort_key x) (sort_key y) = true) ∧
      sort_key ⟨t, a, none, none⟩ = some (0, 0) ∧
      sort_books [⟨none, none, some "s", none⟩] false = none := by
  refine ⟨?_, rfl, by decide⟩
  rw [sort_books_eq h]
  exact pairwise_isort (fun x y => bookLe_total false x y)
    (fun x y z h1 h2 => bookLe_trans h1 h2) books

/-- C4 witness: instantiated at a two-record library. -/
theorem c4_sorted_by_key_witness :
    ([⟨some "B", none, some "80 BC", none⟩, ⟨some "A", none, some "1963", none⟩] : List Book).Pairwise
        (fun x y => optKeyLe (sort_key x) (sort_key y) = true) ∧
      sort_key ⟨none, none, none, none⟩ = some (0, 0) ∧
      sort_books [⟨none, none, some "s", none⟩] false = none :=
  c4_sorted_by_key
    [⟨some "A", none, some "1963", none⟩, ⟨some "B", none, some "80 BC", none⟩]
    [⟨some "B", none, some "80 BC", none⟩, ⟨some "A", none, some "1963", none⟩]
    none none (by decide)

/-- C5: ascending rank is stable — for every sort key, the records carrying
that key appear in the output of `sort_books _ false` in exactly their input
order (so a tied `A` before `B` in the input stays before `B`). -/
theorem c5_stable_ascending (books out : List Book) (k : Option (Int × Int))
    (h : sort_books books false = some out) :
    out.filter (fun b => decide (sort_key b = k)) =
      books.filter (fun b => decide (sort_key b = k)) := by
  rw [sort_books_eq h]
  exact filter_isort (fun x y => bookLe_total false x y)
    (fun x y z h1 h2 => bookLe_trans h1 h2)
    (fun x y hx hy => by
      show optKeyLe (sort_key x) (sort_key y) = true
      rw [of_decide_eq_true hx, of_decide_eq_true hy]
      exact optKeyLe_refl k) books

/-- C5 witness: two records tied on `(1963, 0)` keep their input order. -/
theorem c5_stable_ascending_witness :
    ([⟨some "A", none, some "1963", none⟩, ⟨some "B", none, some "1963", none⟩] : List Book).filter
        (fun b => decide (sort_key b = some (1963, 0))) =
      ([⟨some "A", none, some "1963", none⟩, ⟨some "B", none, some "1963", none⟩] : List Book).filter
        (fun b => decide (sort_key b = some (1963, 0))) :=
  c5_stable_ascending
    [⟨some "A", none, some "1963", none⟩, ⟨some "B", none, some "1963", none⟩]
    [⟨some "A", none, some "1963", none⟩, ⟨some "B", none, some "1963", none⟩]
    (some (1963, 0)) (by decide)

/-- C6: with no tied sort keys, the descending sort is the reverse of the
ascending sort; and in the descending output the records tied on any key
still appear in their original relative input order (Python's `reverse=True`
keeps stability, it does not reverse ties). -/
theorem c6_descending_reverse (xs out : List Book) (k : Option (Int × Int)) :
    (xs.Pairwise (fun x y => sort_key x ≠ sort_key y) →
        sort_books xs true = Option.map List.reverse (sort_books xs false)) ∧
      (sort_books xs true = some out →
        out.filter (fun b => decide (sort_key b = k)) =
          xs.filter (fun b => decide (sort_key b = k))) := by
  constructor
  · intro hnd
    unfold sort_books
    by_cases hg : xs.all (fun b => (sort_key b).isSome) = true
    · rw [if_pos hg, if_pos hg]
      show some (isort (bookLe true) xs) = some ((isort (bookLe false) xs).reverse)
      refine congrArg some ?_
      have hperm : (isort (bookLe true) xs).Perm ((isort (bookLe false) xs).reverse) :=
        (perm_isort (bookLe true) xs).trans
          (((isort (bookLe false) xs).reverse_perm.trans (perm_isort (bookLe false) xs)).symm)
      refine sorted_perm_unique (R := fun x y => bookLe true x y = true) _ _ hperm
        (pairwise_isort (fun x y => bookLe_total true x y)
          (fun x y z h1 h2 => bookLe_trans h1 h2) xs)
        (List.pairwise_reverse.mpr
          (pairwise_isort (fun x y => bookLe_total false x y)
            (fun x y z h1 h2 => bookLe_trans h1 h2) xs))
        ?_
      intro x y hx hy h1 h2
      by_cases hxy : x = y
      · exact hxy
      · have hx' : x ∈ xs := (perm_isort (bookLe true) xs).mem_iff.mp hx
        have hy' : y ∈ xs := (perm_isort (bookLe true) xs).mem_iff.mp hy
        have hsymm : Symmetric (fun x y : Book => sort_key x ≠ sort_key y) :=
          fun _ _ hne he => hne he.symm
        exact absurd (bookLe_key_eq h1 h2) (hnd.forall hsymm hx' hy' hxy)
    · rw [if_neg hg, if_neg hg]
      rfl
  · intro hout
    rw [sort_books_eq hout]
    exact filter_isort (fun x y => bookLe_total true x y)
      (fun x y z h1 h2 => bookLe_trans h1 h2)
      (fun x y hx hy => by
        show optKeyLe (sort_key y) (sort_key x) = true
        rw [of_decide_eq_true hx, of_decide_eq_true hy]
        exact optKeyLe_refl k) xs

/-- C6 witness: a tie-free two-record library, descending equals reversed
ascending, and the tied-key filter is preserved. -/
theorem c6_descending_reverse_witness :
    sort_books [⟨some "A", none, some "1963", none⟩, ⟨some "B", none, some "80 BC", none⟩] true =
        Option.map List.reverse
          (sort_books [⟨some "A", none, some "1963", none⟩,
            ⟨some "B", none, some "80 BC", none⟩] false) ∧
      ([⟨some "A", none, some "1963", none⟩, ⟨some "B", none, some "80 BC", none⟩] :
            List Book).filter (fun b => decide (sort_key b = some (1963, 0))) =
        ([⟨some "A", none, some "1963", none⟩, ⟨some "B", none, some "80 BC", none⟩] :
            List Book).filter (fun b => decide (sort_key b = some (1963, 0))) :=
  ⟨(c6_descending_reverse
      [⟨some "A", none, some "1963", none⟩, ⟨some "B", none, some "80 BC", none⟩]
      [⟨some "A", none, some "1963", none⟩, ⟨some "B", none, some "80 BC", none⟩]
      (some (1963, 0))).1 (by decide),
    (c6_descending_reverse
      [⟨some "A", none, some "1963", none⟩, ⟨some "B", none, some "80 BC", none⟩]
      [⟨some "A", none, some "1963", none⟩, ⟨some "B", none, some "80 BC", none⟩]
      (some (1963, 0))).2 (by decide)⟩

/-- C7: the filter keeps exactly the records whose lowercased title or author
contains the lowercased query; a record with both fields missing never
matches a non-empty query; the empty query returns the collection unchanged. -/
theorem c7_search_filter (books : List Book) (q : String) (b : Book) :
    search_filter books q = books.filter (bookMatches q) ∧
      (q ≠ "" → b.title = none → b.author = none → bookMatches q b = false) ∧
      search_filter books "" = books := by
  refine ⟨?_, ?_, by simp [search_filter]⟩
  · by_cases hq : q = ""
    · subst hq
      have hmatch : ∀ bb : Book, bookMatches "" bb = true := by
        intro bb
        simp only [bookMatches]
        rw [show pyLower "".data = [] from rfl, hasSub_nil]
        simp
      simp only [search_filter, if_pos rfl]
      exact (List.filter_eq_self.mpr fun bb _ => hmatch bb).symm
    · simp only [search_filter, if_neg hq]
  · intro hq ht ha
    simp only [bookMatches, ht, ha, Option.getD]
    rw [show pyLower "".data = [] from rfl]
    show ((pyLower q.data).isEmpty || (pyLower q.data).isEmpty) = false
    cases hqd : q.data with
    | nil =>
      refine absurd ?_ hq
      apply String.ext
      rw [hqd]
    | cons c cs => simp [pyLower, hqd]

/-- C7 witness: instantiated on a one-record library and the query
`"tolkien"`, plus a fully field-less record. -/
theorem c7_search_filter_witness :
    search_filter [⟨some "The Hobbit", some "J.R.R. Tolkien", none, none⟩] "tolkien" =
        ([⟨some "The Hobbit", some "J.R.R. Tolkien", none, none⟩] : List Book).filter
          (bookMatches "tolkien") ∧
      bookMatches "tolkien" ⟨none, none, none, none⟩ = false ∧
      search_filter [⟨some "The Hobbit", some "J.R.R. Tolkien", none, none⟩] "" =
        [⟨some "The Hobbit", some "J.R.R. Tolkien", none, none⟩] :=
  ⟨(c7_search_filter [⟨some "The Hobbit", some "J.R.R. Tolkien", none, none⟩] "tolkien"
      ⟨none, none, none, none⟩).1,
    (c7_search_filter [⟨some "The Hobbit", some "J.R.R. Tolkien", none, none⟩] "tolkien"
      ⟨none, none, none, none⟩).2.1 (by decide) rfl rfl,
    (c7_search_filter [⟨some "The Hobbit", some "J.R.R. Tolkien", none, none⟩] ""
      ⟨none, none, none, none⟩).2.2⟩

/-- C8: whenever `sort_books` returns, the output is a permutation of the
input of the same length (the model is purely functional, so the input list
is never mutated).  The claim's "for every input sequence" is contradicted by
the last conjunct: on a record whose `original_date` is `"s"` the code raises
(`none`) instead of returning a permutation. -/
theorem c8_permutation (books : List Book) (rev : Bool) (out : List Book)
    (h : sort_books books rev = some out) :
    out.Perm books ∧ out.length = books.length ∧
      sort_books [⟨none, none, some "s", none⟩] false = none := by
  have hperm : out.Perm books := by
    rw [sort_books_eq h]
    exact perm_isort (bookLe rev) books
  exact ⟨hperm, hperm.length_eq, by decide⟩

/-- C8 witness: instantiated at a two-record library, sorted descending. -/
theorem c8_permutation_witness :
    ([⟨some "A", none, some "1963", none⟩, ⟨some "B", none, some "80 BC", none⟩] : List Book).Perm
        [⟨some "B", none, some "80 BC", none⟩, ⟨some "A", none, some "1963", none⟩] ∧
      ([⟨some "A", none, some "1963", none⟩, ⟨some "B", none, some "80 BC", none⟩] :
          List Book).length =
        ([⟨some "B", none, some "80 BC", none⟩, ⟨some "A", none, some "1963", none⟩] :
          List Book).length ∧
      sort_books [⟨none, none, some "s", none⟩] false = none :=
  c8_permutation
    [⟨some "B", none, some "80 BC", none⟩, ⟨some "A", none, some "1963", none⟩] true
    [⟨some "A", none, some "1963", none⟩, ⟨some "B", none, some "80 BC", none⟩] (by decide)

/-- C9: the empty (or absent, i.e. defaulted-to-empty) date is `0`,
`"circa 1200"` is stripped to its digits and parses to `1200`, and digitless
garbage such as `"circa"` yields `0` — but the final clause of the claim
fails: on `"s"` (no digits left, yet an `"s"` present) the code raises
(`none`) instead of returning `0`. -/
theorem c9_empty_and_garbage :
    parse_date "" = some 0 ∧
      parse_date ((none : Option String).getD "") = some 0 ∧
      parse_date "circa 1200" = some 1200 ∧
      parse_date "circa" = some 0 ∧
      parse_date "s" = none := by
  refine ⟨by decide, by decide, by decide, by decide, by decide⟩

/-- C10: on a non-empty query the filter output is a subsequence of the input
(original order preserved) containing exactly the matching records. -/
theorem c10_filter_order (books : List Book) (q : String) (b : Book) (hq : q ≠ "") :
    (search_filter books q).Sublist books ∧
      (b ∈ search_filter books q ↔ b ∈ books ∧ bookMatches q b = true) := by
  unfold search_filter
  rw [if_neg hq]
  exact ⟨List.filter_sublist books, by simp⟩

/-- C10 witness: a two-record library where only one record matches. -/
theorem c10_filter_order_witness :
    (search_filter [⟨some "The Hobbit", some "J.R.R. Tolkien", none, none⟩,
        ⟨some "Dune", some "Frank Herbert", none, none⟩] "tolkien").Sublist
        [⟨some "The Hobbit", some "J.R.R. Tolkien", none, none⟩,
          ⟨some "Dune", some "Frank Herbert", none, none⟩] ∧
      ((⟨some "Dune", some "Frank Herbert", none, none⟩ : Book) ∈
          search_filter [⟨some "The Hobbit", some "J.R.R. Tolkien", none, none⟩,
            ⟨some "Dune", some "Frank Herbert", none, none⟩] "tolkien" ↔
        (⟨some "Dune", some "Frank Herbert", none, none⟩ : Book) ∈
            ([⟨some "The Hobbit", some "J.R.R. Tolkien", none, none⟩,
              ⟨some "Dune", some "Frank Herbert", none, none⟩] : List Book) ∧
          bookMatches "tolkien" ⟨some "Dune", some "Frank Herbert", none, none⟩ = true) :=
  c10_filter_order
    [⟨some "The Hobbit", some "J.R.R. Tolkien", none, none⟩,
      ⟨some "Dune", some "Frank Herbert", none, none⟩] "tolkien"
    ⟨some "Dune", some "Frank Herbert", none, none⟩ (by decide)

/-- C3 witness: the amended sign rule instantiated at `"80 BC"`. -/
theorem c3_bc_sign_amended_witness :
    (∃ n : Nat, magnitude "80 BC" = some n ∧
        (-80 : Int) = if is_bc "80 BC" then -(n : Int) else (n : Int)) ∧
      (is_bc "80 BC" =
        (hasSub ['b', 'c'] (lowstrip "80 BC") || hasSub ['b', '.', 'c', '.'] (lowstrip "80 BC"))) ∧
      parse_date "80 BC" = some (-80) ∧ parse_date "80 b.c" = some 80 ∧
      parse_date "1963" = some 1963 :=
  c3_bc_sign_amended "80 BC" (-80) (by decide)
